import Mathlib

/-!
Shallow embedding of the boundary-face monitoring subsystem of the ablate
repository (src/monitors/boundarySolverMonitor.cpp) and of the buoyancy
source kernel (src/finiteVolume/processes/buoyancy.cpp).

Mesh points are modelled as integers, PETSc scalars as rationals.  The
`Register` member function is modelled as a pure state transformer on the
monitor state; the `Save` member function is modelled in two parts: an
event trace (capturing ordering, acquisition/release of transient vectors
and output emission, including the early-exit path taken when a PETSc call
throws through the checkError operator) and pure functions for the numeric
phases (the per-point copy loop and the local-to-global additive
reduction).
-/

namespace Ablate

/-- Dynamic type of the solver passed to Register: the dynamic pointer cast
succeeds exactly when the solver is an ablate boundary solver. -/
inductive SolverKind
  | boundary
  | other
deriving DecidableEq

/-- The collaborating solver as seen by the monitor: its dynamic type, id,
boundary-geometry entries (each reduced to its faceId, the only field the
monitor reads), output component names, and the face stratum bounds of the
full mesh. -/
structure Solver where
  kind : SolverKind
  solverId : String
  geometry : List ℤ
  outputComponents : List String
  fStart : ℤ
  fEnd : ℤ

/-- The boundary DM built by Register: the boundaryFaceLabel (true = marked
with value 1) and the per-face dof section. -/
structure BoundaryDmModel where
  label : ℤ → Bool
  sec : ℤ → ℤ

/-- The face sub-mesh built by DMPlexFilter, carrying the subpoint index
set that maps each sub-mesh point back to its boundary-mesh point. -/
structure FaceDmModel where
  subpointIS : List ℤ

/-- The mutable state of a BoundarySolverMonitor: the two owned DMs (null
before Register runs) and the monitor name. -/
structure MonitorState where
  boundaryDm : Option BoundaryDmModel
  faceDm : Option FaceDmModel
  name : String

/-- A freshly constructed monitor: both DM pointers are null. -/
def freshMonitor : MonitorState :=
  { boundaryDm := none, faceDm := none, name := "boundarySolverMonitor" }

/-- The list of faces in the section chart, mirroring the loop
`for (f = fStart; f < fEnd; ++f)`. -/
def chartList (fStart fEnd : ℤ) : List ℤ :=
  (List.range (fEnd - fStart).toNat).map (fun k => fStart + (k : ℤ))

/-- The section after PetscSectionCreate and the default loop that sets
every dof in the chart to zero. -/
def sectionInit (fStart fEnd : ℤ) : ℤ → ℤ :=
  (chartList fStart fEnd).foldl (fun s f => Function.update s f 0) (fun _ => 0)

/-- The loop over the boundary-geometry entries: each iteration sets the
label value of the faceId to 1 and the section dof of the faceId to
numberOfComponents (both in the same pass, as in the source). -/
def applyGeometry (numberOfComponents : ℤ) (entries : List ℤ)
    (lab : ℤ → Bool) (sec : ℤ → ℤ) : (ℤ → Bool) × (ℤ → ℤ) :=
  entries.foldl
    (fun p fid => (Function.update p.1 fid true, Function.update p.2 fid numberOfComponents))
    (lab, sec)

/-- Modelled from the spec: `DMPlexFilter` is library code not present in
src/.  Per the spec, the filter restricts strictly to the points whose
label value equals 1 and produces a back-reference index set mapping each
sub-mesh point to its originating boundary-mesh point, with a stable,
deterministic ordering.  Here the marked faces are the geometry faceIds
with duplicates removed (first occurrence kept), which is one such
deterministic ordering. -/
def filterSubmesh (markedFaces : List ℤ) : FaceDmModel :=
  { subpointIS := markedFaces.dedup }

/-- Error message thrown when the dynamic cast to BoundarySolver fails. -/
def wrongSolverMsg : String :=
  "The BoundarySolverMonitor monitor can only be used with ablate::boundarySolver::BoundarySolver"

/-- BoundarySolverMonitor::Register.  Returns the monitor state after the
call together with the error raised, if any.  When the dynamic cast fails
the invalid_argument exception is thrown before any DM is cloned, so the
state is returned untouched. -/
def Register (m : MonitorState) (s : Solver) : MonitorState × Option String :=
  if s.kind ≠ SolverKind.boundary then
    (m, some wrongSolverMsg)
  else
    let numberOfComponents : ℤ := (s.outputComponents.length : ℤ)
    let labSec := applyGeometry numberOfComponents s.geometry
      (fun _ => false) (sectionInit s.fStart s.fEnd)
    ({ boundaryDm := some { label := labSec.1, sec := labSec.2 },
       faceDm := some (filterSubmesh s.geometry),
       name := s.solverId ++ m.name }, none)

/-- The label of the boundary DM held by a monitor state (false when the
DM is null). -/
def labelOf (m : MonitorState) (f : ℤ) : Bool :=
  match m.boundaryDm with
  | some b => b.label f
  | none => false

/-- The section dof of the boundary DM held by a monitor state (0 when the
DM is null). -/
def dofOf (m : MonitorState) (f : ℤ) : ℤ :=
  match m.boundaryDm with
  | some b => b.sec f
  | none => 0

/-- The subpoint index set of the face DM held by a monitor state. -/
def subpointsOf (m : MonitorState) : List ℤ :=
  match m.faceDm with
  | some fd => fd.subpointIS
  | none => []

/-- The destructor destroys exactly the DMs that are non-null. -/
def destructorDestroys (m : MonitorState) : List String :=
  (if m.boundaryDm.isSome then ["boundaryDm"] else []) ++
    (if m.faceDm.isSome then ["faceDm"] else [])

/-! Fold lemmas for the Register loops. -/

theorem applyGeometry_fst (numberOfComponents : ℤ) (entries : List ℤ)
    (lab : ℤ → Bool) (sec : ℤ → ℤ) (f : ℤ) :
    (applyGeometry numberOfComponents entries lab sec).1 f =
      (decide (f ∈ entries) || lab f) := by
  induction entries generalizing lab sec with
  | nil => simp [applyGeometry]
  | cons e es ih =>
    simp only [applyGeometry, List.foldl_cons] at *
    rw [ih]
    by_cases h : f = e
    · subst h
      simp [Function.update_same]
    · simp [Function.update_noteq h, List.mem_cons, h]

theorem applyGeometry_snd (numberOfComponents : ℤ) (entries : List ℤ)
    (lab : ℤ → Bool) (sec : ℤ → ℤ) (f : ℤ) :
    (applyGeometry numberOfComponents entries lab sec).2 f =
      (if f ∈ entries then numberOfComponents else sec f) := by
  induction entries generalizing lab sec with
  | nil => simp [applyGeometry]
  | cons e es ih =>
    simp only [applyGeometry, List.foldl_cons] at *
    rw [ih]
    by_cases hes : f ∈ es
    · simp [hes, List.mem_cons]
    · by_cases h : f = e
      · subst h
        simp [hes, Function.update_same]
      · simp [hes, Function.update_noteq h, List.mem_cons, h]

theorem sectionInit_eq_zero (fStart fEnd : ℤ) (f : ℤ) :
    sectionInit fStart fEnd f = 0 := by
  unfold sectionInit
  generalize chartList fStart fEnd = l
  have h : ∀ (g : ℤ → ℤ), (∀ x, g x = 0) →
      ∀ x, (l.foldl (fun s p => Function.update s p 0) g) x = 0 := by
    induction l with
    | nil => intro g hg x; simpa using hg x
    | cons p ps ih =>
      intro g hg x
      simp only [List.foldl_cons]
      refine ih _ ?_ x
      intro y
      by_cases hy : y = p
      · subst hy; simp [Function.update_same]
      · simp [Function.update_noteq hy, hg y]
  exact h _ (fun _ => rfl) f

/-- Claim C3: after Register succeeds with an output component set of size
N, every face f in the chart [fStart, fEnd) is marked in the label exactly
when f appears among the geometry faceIds, in which case its section dof
equals N; otherwise its dof is 0. -/
theorem register_label_section_spec (m : MonitorState) (s : Solver) (f : ℤ)
    (hk : s.kind = SolverKind.boundary)
    (hf1 : s.fStart ≤ f) (hf2 : f < s.fEnd) :
    (Register m s).2 = none ∧
    (labelOf (Register m s).1 f = true ↔ f ∈ s.geometry) ∧
    dofOf (Register m s).1 f =
      (if f ∈ s.geometry then (s.outputComponents.length : ℤ) else 0) := by
  have hreg : Register m s =
      ({ boundaryDm := some
           { label := (applyGeometry ((s.outputComponents.length : ℤ)) s.geometry
               (fun _ => false) (sectionInit s.fStart s.fEnd)).1,
             sec := (applyGeometry ((s.outputComponents.length : ℤ)) s.geometry
               (fun _ => false) (sectionInit s.fStart s.fEnd)).2 },
         faceDm := some (filterSubmesh s.geometry),
         name := s.solverId ++ m.name }, none) := by
    simp [Register, hk]
  refine ⟨by rw [hreg], ?_, ?_⟩
  · rw [hreg]
    simp only [labelOf, applyGeometry_fst]
    simp
  · rw [hreg]
    simp only [dofOf, applyGeometry_snd, sectionInit_eq_zero]

/-- Witness for register_label_section_spec at a concrete solver. -/
theorem register_label_section_spec_witness :
    ((Solver.mk SolverKind.boundary "flow" [2, 3] ["heatFlux", "massFlux"] 0 5).kind =
        SolverKind.boundary ∧
      (0 : ℤ) ≤ 2 ∧ (2 : ℤ) < 5) ∧
    ((Register freshMonitor
        (Solver.mk SolverKind.boundary "flow" [2, 3] ["heatFlux", "massFlux"] 0 5)).2 = none ∧
    (labelOf (Register freshMonitor
        (Solver.mk SolverKind.boundary "flow" [2, 3] ["heatFlux", "massFlux"] 0 5)).1 2 = true ↔
      (2 : ℤ) ∈ [(2 : ℤ), 3]) ∧
    dofOf (Register freshMonitor
        (Solver.mk SolverKind.boundary "flow" [2, 3] ["heatFlux", "massFlux"] 0 5)).1 2 =
      (if (2 : ℤ) ∈ [(2 : ℤ), 3] then
        ((["heatFlux", "massFlux"] : List String).length : ℤ) else 0)) :=
  ⟨⟨rfl, by decide, by decide⟩,
    register_label_section_spec freshMonitor
      (Solver.mk SolverKind.boundary "flow" [2, 3] ["heatFlux", "massFlux"] 0 5) 2
      rfl (by decide) (by decide)⟩

/-- Claim C4: after Register, the subpoint index set is a bijection from
face sub-mesh points onto the marked boundary faces: its entries are
pairwise distinct, a face occurs in it exactly when the label marks it,
and its length equals the number of marked faces. -/
theorem register_subpointIS_bijection (m : MonitorState) (s : Solver) (f : ℤ)
    (hk : s.kind = SolverKind.boundary) :
    (subpointsOf (Register m s).1).Nodup ∧
    (f ∈ subpointsOf (Register m s).1 ↔ labelOf (Register m s).1 f = true) ∧
    (subpointsOf (Register m s).1).length = s.geometry.toFinset.card := by
  have hsub : subpointsOf (Register m s).1 = s.geometry.dedup := by
    simp [Register, hk, subpointsOf, filterSubmesh]
  have hlab : labelOf (Register m s).1 f = true ↔ f ∈ s.geometry := by
    have : labelOf (Register m s).1 f =
        (decide (f ∈ s.geometry) || false) := by
      simp [Register, hk, labelOf, applyGeometry_fst]
    rw [this]
    simp
  refine ⟨?_, ?_, ?_⟩
  · rw [hsub]; exact List.nodup_dedup _
  · rw [hsub, hlab]; exact List.mem_dedup
  · rw [hsub, List.card_toFinset]

/-- Witness for register_subpointIS_bijection at a concrete solver. -/
theorem register_subpointIS_bijection_witness :
    ((Solver.mk SolverKind.boundary "flow" [4, 2, 4] ["q"] 0 9).kind =
        SolverKind.boundary) ∧
    ((subpointsOf (Register freshMonitor
        (Solver.mk SolverKind.boundary "flow" [4, 2, 4] ["q"] 0 9)).1).Nodup ∧
    ((4 : ℤ) ∈ subpointsOf (Register freshMonitor
        (Solver.mk SolverKind.boundary "flow" [4, 2, 4] ["q"] 0 9)).1 ↔
      labelOf (Register freshMonitor
        (Solver.mk SolverKind.boundary "flow" [4, 2, 4] ["q"] 0 9)).1 4 = true) ∧
    (subpointsOf (Register freshMonitor
        (Solver.mk SolverKind.boundary "flow" [4, 2, 4] ["q"] 0 9)).1).length =
      ([(4 : ℤ), 2, 4] : List ℤ).toFinset.card) :=
  ⟨rfl,
    register_subpointIS_bijection freshMonitor
      (Solver.mk SolverKind.boundary "flow" [4, 2, 4] ["q"] 0 9) 4 rfl⟩

/-- Claim C6: registering a solver whose dynamic type is not the boundary
solver type raises the invalid-argument error, leaves the monitor state
untouched with both DMs null, and the destructor then destroys nothing. -/
theorem register_wrong_solver_type (s : Solver)
    (hk : s.kind ≠ SolverKind.boundary) :
    (Register freshMonitor s).2 = some wrongSolverMsg ∧
    (Register freshMonitor s).1.boundaryDm = none ∧
    (Register freshMonitor s).1.faceDm = none ∧
    destructorDestroys (Register freshMonitor s).1 = [] := by
  have h : Register freshMonitor s = (freshMonitor, some wrongSolverMsg) := by
    simp [Register, hk]
  rw [h]
  exact ⟨rfl, rfl, rfl, rfl⟩

/-- Witness for register_wrong_solver_type at a concrete non-boundary
solver. -/
theorem register_wrong_solver_type_witness :
    ((Solver.mk SolverKind.other "fv" [1] ["q"] 0 9).kind ≠ SolverKind.boundary) ∧
    ((Register freshMonitor (Solver.mk SolverKind.other "fv" [1] ["q"] 0 9)).2 =
        some wrongSolverMsg ∧
    (Register freshMonitor (Solver.mk SolverKind.other "fv" [1] ["q"] 0 9)).1.boundaryDm =
        none ∧
    (Register freshMonitor (Solver.mk SolverKind.other "fv" [1] ["q"] 0 9)).1.faceDm =
        none ∧
    destructorDestroys
        (Register freshMonitor (Solver.mk SolverKind.other "fv" [1] ["q"] 0 9)).1 = []) :=
  ⟨by decide,
    register_wrong_solver_type (Solver.mk SolverKind.other "fv" [1] ["q"] 0 9)
      (by decide)⟩

/-! Event-trace model of BoundarySolverMonitor::Save.  The trace records
the ordered effectful calls of the member function.  Every PETSc call goes
through the checkError operator, which throws on failure; a throw at the
ComputeRHSFunction call therefore ends the trace at that point, skipping
every later call (including all the DMRestore calls at the end of the
function body). -/

/-- Transient vectors acquired by Save. -/
inductive BufferId
  | locX
  | localBoundary
  | localFace
  | globalFace
deriving DecidableEq

/-- Observable events of a Save call, in program order. -/
inductive SaveEvent
  | viewTopology
  | setSequence (seq : ℤ) (time : ℚ)
  | acquire (b : BufferId)
  | ghostBegin
  | ghostEnd
  | computeRHS
  | copyLoop
  | nameVec
  | zeroEntries (b : BufferId)
  | reduceAdd
  | viewVec
  | release (b : BufferId)
deriving DecidableEq

/-- The event trace of one Save call.  `rhsFails` selects the exit path on
which ComputeRHSFunction returns an error and checkError throws. -/
def saveTrace (seq : ℤ) (time : ℚ) (rhsFails : Bool) : List SaveEvent :=
  (if seq = 0 then [SaveEvent.viewTopology] else []) ++
  ([SaveEvent.setSequence seq time,
    SaveEvent.acquire BufferId.locX,
    SaveEvent.ghostBegin,
    SaveEvent.acquire BufferId.localBoundary,
    SaveEvent.zeroEntries BufferId.localBoundary,
    SaveEvent.ghostEnd,
    SaveEvent.computeRHS] ++
  (if rhsFails then [] else
   [SaveEvent.acquire BufferId.localFace,
    SaveEvent.zeroEntries BufferId.localFace,
    SaveEvent.copyLoop,
    SaveEvent.acquire BufferId.globalFace,
    SaveEvent.nameVec,
    SaveEvent.zeroEntries BufferId.globalFace,
    SaveEvent.reduceAdd,
    SaveEvent.viewVec,
    SaveEvent.release BufferId.globalFace,
    SaveEvent.release BufferId.localFace,
    SaveEvent.release BufferId.locX,
    SaveEvent.release BufferId.localBoundary]))

/-- Buffers acquired along a trace, in order. -/
def acquiredBuffers (t : List SaveEvent) : List BufferId :=
  t.filterMap fun e =>
    match e with
    | SaveEvent.acquire b => some b
    | _ => none

/-- Buffers released along a trace, in order. -/
def releasedBuffers (t : List SaveEvent) : List BufferId :=
  t.filterMap fun e =>
    match e with
    | SaveEvent.release b => some b
    | _ => none

/-- Test for the ghost-exchange begin event. -/
def isGhostBegin : SaveEvent → Bool
  | SaveEvent.ghostBegin => true
  | _ => false

/-- Test for the ghost-exchange end event. -/
def isGhostEnd : SaveEvent → Bool
  | SaveEvent.ghostEnd => true
  | _ => false

/-- The events strictly between the ghost-exchange begin and end. -/
def betweenGhost (t : List SaveEvent) : List SaveEvent :=
  ((t.dropWhile (fun e => !(isGhostBegin e))).drop 1).takeWhile
    (fun e => !(isGhostEnd e))

/-! Numeric model of the final reduction: VecZeroEntries on the global
vector followed by DMLocalToGlobal with ADD_VALUES.  At each global point
the contributions of the local representations are combined into the
zeroed slot according to the insert mode. -/

/-- PETSc insert modes used by DMLocalToGlobal. -/
inductive InsertMode
  | insertValues
  | addValues
deriving DecidableEq

/-- Combination of an incoming local contribution with the current global
value: INSERT_VALUES overwrites, ADD_VALUES sums. -/
def combine : InsertMode → ℚ → ℚ → ℚ
  | InsertMode.insertValues, _, newVal => newVal
  | InsertMode.addValues, old, newVal => old + newVal

/-- One global point of DMLocalToGlobal: fold the local contributions into
the initial global value with the given mode. -/
def dmLocalToGlobalPoint (mode : InsertMode) (init : ℚ) (contribs : List ℚ) : ℚ :=
  contribs.foldl (combine mode) init

/-- One global point of the reduction performed by Save: the global vector
is zeroed first, then the local contributions are folded in with
ADD_VALUES. -/
def saveGlobalFacePoint (contribs : List ℚ) : ℚ :=
  dmLocalToGlobalPoint InsertMode.addValues 0 contribs

theorem dmLocalToGlobalPoint_add (contribs : List ℚ) (init : ℚ) :
    dmLocalToGlobalPoint InsertMode.addValues init contribs = init + contribs.sum := by
  induction contribs generalizing init with
  | nil => simp [dmLocalToGlobalPoint]
  | cons c cs ih =>
    simp only [dmLocalToGlobalPoint, List.foldl_cons] at *
    rw [ih, List.sum_cons, combine]
    ring

/-- Claim C1: the global sub-mesh vector is zeroed and then filled by
additive combination, so each global point holds the sum of its local
contributions; in particular contributions a and 0 combine to a, not 2a. -/
theorem save_globalFaceVec_additive (contribs : List ℚ) (a : ℚ) :
    saveGlobalFacePoint contribs = contribs.sum ∧
    saveGlobalFacePoint [a, 0] = a := by
  constructor
  · rw [saveGlobalFacePoint, dmLocalToGlobalPoint_add, zero_add]
  · rw [saveGlobalFacePoint, dmLocalToGlobalPoint_add]
    simp

/-- Claim C7: the one-time topology record (DMView of the face DM) is
emitted exactly when the sequence number is 0, on both exit paths. -/
theorem save_topology_iff_seq_zero (seq : ℤ) (time : ℚ) (rhsFails : Bool) :
    SaveEvent.viewTopology ∈ saveTrace seq time rhsFails ↔ seq = 0 := by
  by_cases h : seq = 0 <;> cases rhsFails <;> simp [saveTrace, h]

/-- Counterexample to claim C9: in the trace of a Save call the ghost
exchange begin is not immediately followed by its end; two local
operations stand between them. -/
theorem save_ghost_pair_counterexample :
    betweenGhost (saveTrace 1 0 false) ≠ [] ∧
    betweenGhost (saveTrace 1 0 false) =
      [SaveEvent.acquire BufferId.localBoundary,
       SaveEvent.zeroEntries BufferId.localBoundary] := by
  constructor
  · decide
  · decide

/-- Claim C9 as amended: between the ghost-exchange begin and end, Save
performs exactly two interleaved local operations, the acquisition and the
zeroing of the local boundary vector, and nothing else. -/
theorem save_ghost_pair_amended (seq : ℤ) (time : ℚ) (rhsFails : Bool) :
    betweenGhost (saveTrace seq time rhsFails) =
      [SaveEvent.acquire BufferId.localBoundary,
       SaveEvent.zeroEntries BufferId.localBoundary] := by
  by_cases h : seq = 0 <;> cases rhsFails <;>
    simp [saveTrace, betweenGhost, h, List.dropWhile, List.takeWhile,
      isGhostBegin, isGhostEnd]

/-- Counterexample to claim C5: on the exit path where ComputeRHSFunction
fails, buffers have been acquired and none of them is released before the
failure propagates (checkError throws past every DMRestore call). -/
theorem save_release_counterexample :
    ¬ (∀ b ∈ acquiredBuffers (saveTrace 1 0 true),
        b ∈ releasedBuffers (saveTrace 1 0 true)) := by
  decide

/-- Claim C5 as amended: on the normal exit path every acquired buffer is
released (all four transient vectors); on the early exit taken when the
boundary computation routine fails, no output is written for the snapshot,
but the two buffers acquired up to that point remain unreleased when the
failure propagates. -/
theorem save_release_amended (seq : ℤ) (time : ℚ) (b : BufferId) :
    (b ∈ acquiredBuffers (saveTrace seq time false) ↔
      b ∈ releasedBuffers (saveTrace seq time false)) ∧
    SaveEvent.viewVec ∉ saveTrace seq time true ∧
    acquiredBuffers (saveTrace seq time true) =
      [BufferId.locX, BufferId.localBoundary] ∧
    releasedBuffers (saveTrace seq time true) = [] := by
  refine ⟨?_, ?_, ?_, ?_⟩
  · by_cases h : seq = 0 <;>
      simp [saveTrace, acquiredBuffers, releasedBuffers, h] <;>
      cases b <;> decide
  · by_cases h : seq = 0 <;> simp [saveTrace, h]
  · by_cases h : seq = 0 <;> simp [saveTrace, acquiredBuffers, h]
  · by_cases h : seq = 0 <;> simp [saveTrace, releasedBuffers, h]

/-! Numeric model of the per-point copy phase of Save (lines 115-153 of
the source): the local face vector is zeroed, then for every cell point of
the face DM in [cStart, cEnd) the subpoint index set gives the boundary
point, DMPlexPointLocalRead resolves the read location (possibly null) and
DMPlexPointLocalRef resolves the write location (possibly null), and when
both resolve, dataSize scalars are copied.  The whole loop is guarded by
the two VecGetArray results being non-null. -/

/-- A zeroed block of dataSize scalars, the state VecZeroEntries leaves at
every face point. -/
def zeroBlock (dataSize : ℕ) : List ℚ :=
  List.replicate dataSize 0

/-- One iteration of the copy loop at point p: read the block at the
mapped boundary point, and when both the read and the write location are
non-null copy dataSize scalars into the slot of p; otherwise leave the
buffer untouched. -/
def copyStep (read : ℕ → Option (List ℚ)) (writable : ℕ → Bool)
    (faceToBoundary : ℕ → ℕ) (dataSize : ℕ)
    (buf : ℕ → List ℚ) (p : ℕ) : ℕ → List ℚ :=
  match read (faceToBoundary p), writable p with
  | some blk, true => Function.update buf p (blk.take dataSize)
  | _, _ => buf

/-- The copy loop over a list of face points. -/
def copyLoopRun (read : ℕ → Option (List ℚ)) (writable : ℕ → Bool)
    (faceToBoundary : ℕ → ℕ) (dataSize : ℕ) :
    List ℕ → (ℕ → List ℚ) → (ℕ → List ℚ)
  | [], buf => buf
  | p :: ps, buf =>
      copyLoopRun read writable faceToBoundary dataSize ps
        (copyStep read writable faceToBoundary dataSize buf p)

/-- The face points [cStart, cEnd) in loop order. -/
def facePoints (cStart cEnd : ℕ) : List ℕ :=
  (List.range (cEnd - cStart)).map (fun k => cStart + k)

/-- The local face buffer at the end of the copy phase: zeroed, then (when
both raw arrays are non-null) written by the loop over [cStart, cEnd). -/
def savePhaseCopy (arraysPresent : Bool) (read : ℕ → Option (List ℚ))
    (writable : ℕ → Bool) (faceToBoundary : ℕ → ℕ)
    (dataSize cStart cEnd : ℕ) : ℕ → List ℚ :=
  if arraysPresent then
    copyLoopRun read writable faceToBoundary dataSize
      (facePoints cStart cEnd) (fun _ => zeroBlock dataSize)
  else
    fun _ => zeroBlock dataSize

theorem copyStep_ne (read : ℕ → Option (List ℚ)) (writable : ℕ → Bool)
    (faceToBoundary : ℕ → ℕ) (dataSize : ℕ) (buf : ℕ → List ℚ)
    (p q : ℕ) (h : q ≠ p) :
    copyStep read writable faceToBoundary dataSize buf p q = buf q := by
  unfold copyStep
  cases read (faceToBoundary p) with
  | none => rfl
  | some blk =>
    cases hw : writable p with
    | false => rfl
    | true => simp [Function.update_noteq h]

theorem copyLoopRun_not_mem (read : ℕ → Option (List ℚ)) (writable : ℕ → Bool)
    (faceToBoundary : ℕ → ℕ) (dataSize : ℕ) (ps : List ℕ)
    (buf : ℕ → List ℚ) (q : ℕ) (hq : q ∉ ps) :
    copyLoopRun read writable faceToBoundary dataSize ps buf q = buf q := by
  induction ps generalizing buf with
  | nil => rfl
  | cons p ps ih =>
    simp only [List.mem_cons, not_or] at hq
    simp only [copyLoopRun]
    rw [ih _ hq.2, copyStep_ne _ _ _ _ _ _ _ hq.1]

theorem copyLoopRun_mem_write (read : ℕ → Option (List ℚ)) (writable : ℕ → Bool)
    (faceToBoundary : ℕ → ℕ) (dataSize : ℕ) (ps : List ℕ)
    (buf : ℕ → List ℚ) (q : ℕ) (blk : List ℚ)
    (hnd : ps.Nodup) (hq : q ∈ ps)
    (hr : read (faceToBoundary q) = some blk) (hw : writable q = true) :
    copyLoopRun read writable faceToBoundary dataSize ps buf q =
      blk.take dataSize := by
  induction ps generalizing buf with
  | nil => cases hq
  | cons p ps ih =>
    rw [List.nodup_cons] at hnd
    simp only [copyLoopRun]
    rcases List.mem_cons.mp hq with hqp | hqs
    · subst hqp
      rw [copyLoopRun_not_mem _ _ _ _ _ _ _ hnd.1]
      unfold copyStep
      rw [hr, hw]
      simp [Function.update_same]
    · exact ih _ hnd.2 hqs

theorem copyLoopRun_mem_skip (read : ℕ → Option (List ℚ)) (writable : ℕ → Bool)
    (faceToBoundary : ℕ → ℕ) (dataSize : ℕ) (ps : List ℕ)
    (buf : ℕ → List ℚ) (q : ℕ)
    (hnd : ps.Nodup) (hq : q ∈ ps)
    (hskip : read (faceToBoundary q) = none ∨ writable q = false) :
    copyLoopRun read writable faceToBoundary dataSize ps buf q = buf q := by
  induction ps generalizing buf with
  | nil => cases hq
  | cons p ps ih =>
    rw [List.nodup_cons] at hnd
    simp only [copyLoopRun]
    rcases List.mem_cons.mp hq with hqp | hqs
    · subst hqp
      rw [copyLoopRun_not_mem _ _ _ _ _ _ _ hnd.1]
      unfold copyStep
      rcases hskip with hr | hw
      · rw [hr]
      · rw [hw]
        cases read (faceToBoundary q) <;> rfl
    · have hqp : q ≠ p := fun h => hnd.1 (h ▸ hqs)
      rw [ih _ hnd.2 hqs, copyStep_ne _ _ _ _ _ _ _ hqp]

theorem facePoints_nodup (cStart cEnd : ℕ) : (facePoints cStart cEnd).Nodup := by
  unfold facePoints
  exact (List.nodup_range _).map (fun a b h => by omega)

theorem facePoints_mem (cStart cEnd q : ℕ) :
    q ∈ facePoints cStart cEnd ↔ cStart ≤ q ∧ q < cEnd := by
  unfold facePoints
  simp only [List.mem_map, List.mem_range]
  constructor
  · rintro ⟨k, hk, rfl⟩; omega
  · rintro ⟨h1, h2⟩; exact ⟨q - cStart, by omega, by omega⟩

/-- Claim C2: the local face buffer is zeroed, and then for every face
point in [cStart, cEnd) the back-reference gives the boundary point and a
block of dataSize scalars is copied when both the read and the write
location resolve; if either resolves to null the point is silently skipped
and its entries remain zero; the phase is a total function, raising no
error. -/
theorem save_copy_loop_spec (read : ℕ → Option (List ℚ)) (writable : ℕ → Bool)
    (faceToBoundary : ℕ → ℕ) (dataSize cStart cEnd facePt : ℕ) (blk : List ℚ)
    (h1 : cStart ≤ facePt) (h2 : facePt < cEnd) :
    (read (faceToBoundary facePt) = some blk → writable facePt = true →
      savePhaseCopy true read writable faceToBoundary dataSize cStart cEnd facePt =
        blk.take dataSize) ∧
    (read (faceToBoundary facePt) = none →
      savePhaseCopy true read writable faceToBoundary dataSize cStart cEnd facePt =
        zeroBlock dataSize) ∧
    (writable facePt = false →
      savePhaseCopy true read writable faceToBoundary dataSize cStart cEnd facePt =
        zeroBlock dataSize) := by
  have hmem : facePt ∈ facePoints cStart cEnd :=
    (facePoints_mem cStart cEnd facePt).mpr ⟨h1, h2⟩
  refine ⟨?_, ?_, ?_⟩
  · intro hr hw
    unfold savePhaseCopy
    simp only [if_pos]
    exact copyLoopRun_mem_write _ _ _ _ _ _ _ _ (facePoints_nodup _ _) hmem hr hw
  · intro hr
    unfold savePhaseCopy
    simp only [if_pos]
    exact copyLoopRun_mem_skip _ _ _ _ _ _ _ (facePoints_nodup _ _) hmem (Or.inl hr)
  · intro hw
    unfold savePhaseCopy
    simp only [if_pos]
    exact copyLoopRun_mem_skip _ _ _ _ _ _ _ (facePoints_nodup _ _) hmem (Or.inr hw)

/-- Witness for save_copy_loop_spec at a concrete point with a valid read
and write location. -/
theorem save_copy_loop_spec_witness :
    ((0 : ℕ) ≤ 0 ∧ (0 : ℕ) < 2) ∧
    (((fun _ : ℕ => some [(5 : ℚ)]) ((fun p : ℕ => p) 0) = some [(5 : ℚ)] →
      (fun _ : ℕ => true) 0 = true →
      savePhaseCopy true (fun _ => some [(5 : ℚ)]) (fun _ => true) (fun p => p)
          1 0 2 0 = List.take 1 [(5 : ℚ)]) ∧
    ((fun _ : ℕ => some [(5 : ℚ)]) ((fun p : ℕ => p) 0) = none →
      savePhaseCopy true (fun _ => some [(5 : ℚ)]) (fun _ => true) (fun p => p)
          1 0 2 0 = zeroBlock 1) ∧
    ((fun _ : ℕ => true) 0 = false →
      savePhaseCopy true (fun _ => some [(5 : ℚ)]) (fun _ => true) (fun p => p)
          1 0 2 0 = zeroBlock 1)) :=
  ⟨⟨by decide, by decide⟩,
    save_copy_loop_spec (fun _ => some [(5 : ℚ)]) (fun _ => true) (fun p => p)
      1 0 2 0 [(5 : ℚ)] (by decide) (by decide)⟩

/-- Claim C8: with zero marked faces Register still succeeds and the face
sub-mesh is empty; the Save copy loop then runs zero iterations leaving
every slot zeroed, and the trace of a successful Save still tags the
output with the sequence number and time, names the global vector and
writes it to the viewer. -/
theorem register_empty_marked_noop (s : Solver) (seq : ℤ) (time : ℚ)
    (read : ℕ → Option (List ℚ)) (writable : ℕ → Bool)
    (faceToBoundary : ℕ → ℕ) (dataSize p : ℕ)
    (hk : s.kind = SolverKind.boundary) (hg : s.geometry = []) :
    (Register freshMonitor s).2 = none ∧
    subpointsOf (Register freshMonitor s).1 = [] ∧
    savePhaseCopy true read writable faceToBoundary dataSize 0
      (subpointsOf (Register freshMonitor s).1).length p = zeroBlock dataSize ∧
    SaveEvent.setSequence seq time ∈ saveTrace seq time false ∧
    SaveEvent.nameVec ∈ saveTrace seq time false ∧
    SaveEvent.viewVec ∈ saveTrace seq time false := by
  have hsub : subpointsOf (Register freshMonitor s).1 = [] := by
    simp [Register, hk, subpointsOf, filterSubmesh, hg]
  refine ⟨by simp [Register, hk], hsub, ?_, ?_, ?_, ?_⟩
  · rw [hsub]
    simp only [List.length_nil]
    unfold savePhaseCopy facePoints
    simp [copyLoopRun]
  · by_cases h : seq = 0 <;> simp [saveTrace, h]
  · by_cases h : seq = 0 <;> simp [saveTrace, h]
  · by_cases h : seq = 0 <;> simp [saveTrace, h]

/-- Witness for register_empty_marked_noop at a concrete empty-geometry
boundary solver. -/
theorem register_empty_marked_noop_witness :
    ((Solver.mk SolverKind.boundary "flow" [] ["q"] 0 9).kind =
        SolverKind.boundary ∧
      (Solver.mk SolverKind.boundary "flow" [] ["q"] 0 9).geometry = []) ∧
    ((Register freshMonitor (Solver.mk SolverKind.boundary "flow" [] ["q"] 0 9)).2 =
        none ∧
    subpointsOf (Register freshMonitor
        (Solver.mk SolverKind.boundary "flow" [] ["q"] 0 9)).1 = [] ∧
    savePhaseCopy true (fun _ => some [(1 : ℚ)]) (fun _ => true) (fun p => p) 1 0
      (subpointsOf (Register freshMonitor
        (Solver.mk SolverKind.boundary "flow" [] ["q"] 0 9)).1).length 0 =
      zeroBlock 1 ∧
    SaveEvent.setSequence 3 (1 / 2) ∈ saveTrace 3 (1 / 2) false ∧
    SaveEvent.nameVec ∈ saveTrace 3 (1 / 2) false ∧
    SaveEvent.viewVec ∈ saveTrace 3 (1 / 2) false) :=
  ⟨⟨rfl, rfl⟩,
    register_empty_marked_noop (Solver.mk SolverKind.boundary "flow" [] ["q"] 0 9)
      3 (1 / 2) (fun _ => some [(1 : ℚ)]) (fun _ => true) (fun p => p) 1 0
      rfl rfl⟩

/-! Embedding of the buoyancy source kernel
(src/finiteVolume/processes/buoyancy.cpp).  The euler field component
offsets of CompressibleFlowFields are RHO = 0, RHOE = 1, RHOU = 2; the
output array f is modelled as a function from component index to scalar. -/

/-- Offset of density in the euler field. -/
def RHO : ℕ := 0

/-- Offset of total energy in the euler field. -/
def RHOE : ℕ := 1

/-- Offset of the first momentum component in the euler field. -/
def RHOU : ℕ := 2

/-- The buoyancy process state read by the kernel through ctx. -/
structure Buoyancy where
  buoyancyVector : ℕ → ℚ
  densityAvg : ℚ

/-- The source loop of ComputeBuoyancySource: iteration n sets the
momentum source at RHOU + n to max((density − densityAvg) · bv n, 0) and
accumulates vel · f[RHOU + n] into the energy source at RHOE, where vel is
the cell velocity u[uOff + RHOU + n] / density. -/
def buoyancyLoop (p : Buoyancy) (uOff : ℕ) (u : ℕ → ℚ) :
    ℕ → (ℕ → ℚ) → (ℕ → ℚ)
  | 0, f => f
  | n + 1, f =>
      let fPrev := buoyancyLoop p uOff u n f
      let density := u (uOff + RHO)
      let fMom := max ((density - p.densityAvg) * p.buoyancyVector n) 0
      let vel := u (uOff + RHOU + n) / density
      Function.update (Function.update fPrev (RHOU + n) fMom) RHOE
        (fPrev RHOE + vel * fMom)

/-- ComputeBuoyancySource: set the density and energy sources to zero,
then run the loop over the dim momentum components. -/
def ComputeBuoyancySource (p : Buoyancy) (dim : ℕ) (uOff : ℕ)
    (u : ℕ → ℚ) (f0 : ℕ → ℚ) : ℕ → ℚ :=
  buoyancyLoop p uOff u dim
    (Function.update (Function.update f0 RHO 0) RHOE 0)

theorem buoyancyLoop_rho (p : Buoyancy) (uOff : ℕ) (u : ℕ → ℚ)
    (m : ℕ) (f : ℕ → ℚ) :
    buoyancyLoop p uOff u m f RHO = f RHO := by
  induction m with
  | zero => rfl
  | succ n ih =>
    simp only [buoyancyLoop]
    rw [Function.update_noteq (by simp only [RHO, RHOE]; omega),
      Function.update_noteq (by simp only [RHO, RHOU]; omega), ih]

theorem buoyancyLoop_mom (p : Buoyancy) (uOff : ℕ) (u : ℕ → ℚ)
    (m k : ℕ) (f : ℕ → ℚ) (hk : k < m) :
    buoyancyLoop p uOff u m f (RHOU + k) =
      max ((u (uOff + RHO) - p.densityAvg) * p.buoyancyVector k) 0 := by
  induction m with
  | zero => omega
  | succ n ih =>
    simp only [buoyancyLoop]
    rw [Function.update_noteq (by simp only [RHOE, RHOU]; omega)]
    by_cases hkn : k = n
    · subst hkn
      rw [Function.update_same]
    · rw [Function.update_noteq (by simp only [RHOU]; omega)]
      exact ih (by omega)

theorem buoyancyLoop_rhoe (p : Buoyancy) (uOff : ℕ) (u : ℕ → ℚ)
    (m : ℕ) (f : ℕ → ℚ) :
    buoyancyLoop p uOff u m f RHOE =
      f RHOE + ∑ k ∈ Finset.range m,
        (u (uOff + RHOU + k) / u (uOff + RHO)) *
          max ((u (uOff + RHO) - p.densityAvg) * p.buoyancyVector k) 0 := by
  induction m with
  | zero => simp [buoyancyLoop]
  | succ n ih =>
    simp only [buoyancyLoop]
    rw [Function.update_same, ih, Finset.sum_range_succ]
    ring

/-- Claim C10: for every cell state and every n < dim, the kernel sets the
density source to 0, each momentum source component to
max((density − densityAvg) · buoyancyVector n, 0), which is non-negative,
and the energy source to the sum over the dim components of
(momentum / density) times the clamped momentum source. -/
theorem computeBuoyancySource_spec (p : Buoyancy) (dim uOff n : ℕ)
    (u : ℕ → ℚ) (f0 : ℕ → ℚ) (hn : n < dim) :
    ComputeBuoyancySource p dim uOff u f0 RHO = 0 ∧
    ComputeBuoyancySource p dim uOff u f0 (RHOU + n) =
      max ((u (uOff + RHO) - p.densityAvg) * p.buoyancyVector n) 0 ∧
    0 ≤ ComputeBuoyancySource p dim uOff u f0 (RHOU + n) ∧
    ComputeBuoyancySource p dim uOff u f0 RHOE =
      ∑ k ∈ Finset.range dim,
        (u (uOff + RHOU + k) / u (uOff + RHO)) *
          max ((u (uOff + RHO) - p.densityAvg) * p.buoyancyVector k) 0 := by
  refine ⟨?_, ?_, ?_, ?_⟩
  · unfold ComputeBuoyancySource
    rw [buoyancyLoop_rho, Function.update_noteq (by simp only [RHO, RHOE]; omega),
      Function.update_same]
  · exact buoyancyLoop_mom p uOff u dim n _ hn
  · unfold ComputeBuoyancySource
    rw [buoyancyLoop_mom p uOff u dim n _ hn]
    exact le_max_right _ _
  · unfold ComputeBuoyancySource
    rw [buoyancyLoop_rhoe, Function.update_same, zero_add]

/-- Witness for computeBuoyancySource_spec at a concrete cell state with
density 1, momentum components 3 and 4, densityAvg -1 and buoyancy vector
constantly 3: the momentum source is 6 and the energy source is 42. -/
theorem computeBuoyancySource_spec_witness :
    ((0 : ℕ) < 2) ∧
    (ComputeBuoyancySource (Buoyancy.mk (fun _ => 3) (-1)) 2 0
        (fun i => (i : ℚ) + 1) (fun _ => 7) RHO = 0 ∧
    ComputeBuoyancySource (Buoyancy.mk (fun _ => 3) (-1)) 2 0
        (fun i => (i : ℚ) + 1) (fun _ => 7) (RHOU + 0) = 6 ∧
    (0 : ℚ) ≤ ComputeBuoyancySource (Buoyancy.mk (fun _ => 3) (-1)) 2 0
        (fun i => (i : ℚ) + 1) (fun _ => 7) (RHOU + 0) ∧
    ComputeBuoyancySource (Buoyancy.mk (fun _ => 3) (-1)) 2 0
        (fun i => (i : ℚ) + 1) (fun _ => 7) RHOE = 42) := by
  have h := computeBuoyancySource_spec (Buoyancy.mk (fun _ => 3) (-1)) 2 0 0
    (fun i => (i : ℚ) + 1) (fun _ => 7) (by decide)
  refine ⟨by decide, h.1, ?_, h.2.2.1, ?_⟩
  · rw [h.2.1]
    norm_num [RHO, max_def]
  · rw [h.2.2.2]
    norm_num [RHO, RHOU, max_def, Finset.sum_range_succ]

end Ablate
